import Mathlib

/-!
Verification of `scripts/obsidian_converter.py`.

Python strings are shallowly embedded as `List Char`; every string-processing
function of the source (`find_image_references`, `convert_image_references`,
`fix_markdown_spacing`) is translated into an executable Lean function over
`List Char`, with the regex scans of the source modelled as explicit
left-to-right scanners that reproduce Python `re.findall` / `re.sub`
semantics (leftmost match, greedy character classes, resume after the match,
`re.IGNORECASE` on the extension alternation).  The filesystem-facing driver
`convert_obsidian_note` is modelled as a function from a read-only view of
the filesystem to either an error or a list of filesystem effects plus the
emitted warnings.
-/

/-- Python strings are modelled as lists of characters. -/
abbrev Chars : Type := List Char

/-- Embed a Lean string literal as a `Chars` value. -/
def pys (s : String) : Chars := s.data

/-- Boolean prefix test: `pyStarts p l` holds when `p` is a prefix of `l`
(models Python `str.startswith` and literal matching in a regex). -/
def pyStarts : Chars → Chars → Bool
  | [], _ => true
  | _ :: _, [] => false
  | p :: ps, c :: cs => p == c && pyStarts ps cs

/-- Auxiliary splitter: `splitChAux sep l cur` splits `l` at every occurrence
of `sep`, with `cur` the (reversed) characters accumulated for the current
piece.  Models Python `str.split(sep)` for a one-character separator. -/
def splitChAux (sep : Char) : Chars → Chars → List Chars
  | [], cur => [cur.reverse]
  | c :: rest, cur =>
    if c == sep then cur.reverse :: splitChAux sep rest []
    else splitChAux sep rest (c :: cur)

/-- Split a string at a one-character separator (Python `str.split(sep)`).
On the empty string it returns `[[]]`, as in Python. -/
def splitCh (sep : Char) (l : Chars) : List Chars := splitChAux sep l []

/-- Join a list of lines with a separator character
(Python `sep.join(lines)`). -/
def joinCh (sep : Char) : List Chars → Chars
  | [] => []
  | [l] => l
  | l :: l₂ :: ls => l ++ sep :: joinCh sep (l₂ :: ls)

/-- The whitespace characters stripped by Python `str.strip()` (the ASCII
ones; the inputs of this program are ASCII text). -/
def pyIsSpace (c : Char) : Bool :=
  c == ' ' || c == '\t' || c == '\n' || c == '\r' || c == '\x0b' || c == '\x0c'

/-- Python `str.strip()`: remove leading and trailing whitespace. -/
def pyStrip (l : Chars) : Chars :=
  ((l.dropWhile pyIsSpace).reverse.dropWhile pyIsSpace).reverse

/-- Python `pathlib.Path(ref).name`: the last `/`-separated component of a
path.  The references this program passes in always end in an image-file
extension, so the trailing-separator normalization of `pathlib` never
fires and the last split component is the name. -/
def pyBasename (l : Chars) : Chars := ((splitCh '/' l).getLast?).getD []

/-- The image extensions of the two regexes of `find_image_references`
(`obsidian_converter.py` lines 25 and 29), each with its leading dot. -/
def imageExts : List Chars :=
  [pys ".png", pys ".jpg", pys ".jpeg", pys ".gif", pys ".svg", pys ".webp"]

/-- Does `w` end in `.` followed by one of the recognized image extensions,
with a nonempty stem before the dot?  This is exactly the condition under
which the regex fragment `[^X]+\.(png|jpg|jpeg|gif|svg|webp)` (with
`re.IGNORECASE`) matches the whole bracket-free run `w`. -/
def endsWithExt (w : Chars) : Bool :=
  imageExts.any (fun e =>
    pyStarts e.reverse (w.map Char.toLower).reverse && Nat.blt e.length w.length)

/-- One attempt of the Obsidian-embed regex
`!\[\[([^\]]+\.(png|jpg|jpeg|gif|svg|webp))\]\]` (line 25) at the start of
`l`.  The character class `[^\]]+` is bracket-free, and the two closing
brackets must follow it, so the capture is forced to be the maximal
bracket-free run after `![[`, which must end in a recognized extension.
Returns the capture of group 1 and the remainder after the match. -/
def tryP1 (l : Chars) : Option (Chars × Chars) :=
  match l with
  | '!' :: '[' :: '[' :: t =>
    if endsWithExt (t.takeWhile (fun c => c != ']')) then
      match t.dropWhile (fun c => c != ']') with
      | ']' :: ']' :: rem => some (t.takeWhile (fun c => c != ']'), rem)
      | _ => none
    else none
  | _ => none

/-- One attempt of the markdown-image regex
`!\[([^\]]*)\]\(([^\)]+\.(png|jpg|jpeg|gif|svg|webp))\)` (line 29) at the
start of `l`.  The alt text is the maximal bracket-free run after `![`,
which must be followed by `](`; the path is the maximal paren-free run,
which must end in a recognized extension and be followed by `)`.  Returns
((alt, path), remainder). -/
def tryP2 (l : Chars) : Option ((Chars × Chars) × Chars) :=
  match l with
  | '!' :: '[' :: t =>
    match t.dropWhile (fun c => c != ']') with
    | ']' :: '(' :: t2 =>
      if endsWithExt (t2.takeWhile (fun c => c != ')')) then
        match t2.dropWhile (fun c => c != ')') with
        | ')' :: rem =>
          some ((t.takeWhile (fun c => c != ']'), t2.takeWhile (fun c => c != ')')), rem)
        | _ => none
      else none
    | _ => none
  | _ => none

/-- Left-to-right scan with the Obsidian-embed pattern, collecting the
group-1 captures of the non-overlapping matches; the fuel argument (always
instantiated with the length of the text) makes the recursion structural. -/
def findP1Aux : Nat → Chars → List Chars
  | _, [] => []
  | 0, _ :: _ => []
  | fuel + 1, c :: rest =>
    match tryP1 (c :: rest) with
    | some (w, rem) => w :: findP1Aux fuel rem
    | none => findP1Aux fuel rest

/-- All group-1 captures of `re.findall` with the Obsidian-embed pattern. -/
def findP1 (l : Chars) : List Chars := findP1Aux l.length l

/-- Left-to-right scan with the markdown-image pattern, collecting the
(alt, path) captures of the non-overlapping matches. -/
def findP2Aux : Nat → Chars → List (Chars × Chars)
  | _, [] => []
  | 0, _ :: _ => []
  | fuel + 1, c :: rest =>
    match tryP2 (c :: rest) with
    | some (ap, rem) => ap :: findP2Aux fuel rem
    | none => findP2Aux fuel rest

/-- All (alt, path) captures of `re.findall` with the markdown-image
pattern. -/
def findP2 (l : Chars) : List (Chars × Chars) := findP2Aux l.length l

/-- `find_image_references` (lines 20-34): scan the content with both
patterns, keep the bracket-embed capture respectively the markdown path
(`img[0]` of each tuple), and deduplicate.  Python deduplicates through
`list(set(...))`, whose order is unspecified; we model the result as
`List.dedup` of the scan order — the claims only depend on membership and
duplicate-freeness. -/
def find_image_references (content : Chars) : List Chars :=
  (findP1 content ++ (findP2 content).map Prod.snd).dedup

/-- Python `str.replace(old, new)`: replace every non-overlapping occurrence
of `old`, scanning left to right.  The fuel argument (instantiated with the
length of the text) makes the recursion structural; each step consumes at
least one character when `old` is nonempty, and the empty-`old` case mirrors
Python's insert-everywhere behaviour. -/
def pyReplaceAux (old new : Chars) : Nat → Chars → Chars
  | _, [] => if old.isEmpty then new else []
  | 0, l => l
  | fuel + 1, c :: rest =>
    if old.isEmpty then new ++ c :: pyReplaceAux old new fuel rest
    else if pyStarts old (c :: rest) then
      new ++ pyReplaceAux old new fuel (List.drop old.length (c :: rest))
    else c :: pyReplaceAux old new fuel rest

/-- Python `l.replace(old, new)`. -/
def pyReplace (l old new : Chars) : Chars := pyReplaceAux old new l.length l

/-- One backtracking position for the tail of the rewrite regex
`!\[([^\]]*)\]\([^\)]*OLD\)` (line 45): at offset `k` into the text after
`](`, the prefix taken by `[^\)]*` must be paren-free, then the escaped
reference `old` must match literally, then a closing paren must follow. -/
def tailHit (old t2 : Chars) (k : Nat) : Bool :=
  (t2.take k).all (fun c => c != ')') && pyStarts old (t2.drop k) &&
    (match t2.drop (k + old.length) with | ')' :: _ => true | _ => false)

/-- Greedy search for the `[^\)]*OLD\)` tail: `[^\)]*` tries the longest
paren-free prefix first and backtracks toward the empty prefix, so offsets
are probed from `k` down to `0`; the first hit returns the remainder after
the closing paren. -/
def tailMatchAux (old t2 : Chars) : Nat → Option Chars
  | 0 => if tailHit old t2 0 then some (t2.drop (old.length + 1)) else none
  | k + 1 =>
    if tailHit old t2 (k + 1) then some (t2.drop (k + 1 + old.length + 1))
    else tailMatchAux old t2 k

/-- Greedy match of `[^\)]*OLD\)` against `t2`. -/
def tailMatch (old t2 : Chars) : Option Chars := tailMatchAux old t2 t2.length

/-- One attempt of the rewrite regex `!\[([^\]]*)\]\([^\)]*OLD\)` at the
start of `l`: `![`, then the maximal bracket-free alt run, then `](`, then
the greedy paren-free prefix, the reference and `)`.  Returns the alt
capture and the remainder after the match. -/
def trySub (old : Chars) (l : Chars) : Option (Chars × Chars) :=
  match l with
  | '!' :: '[' :: t =>
    let alt := t.takeWhile (fun c => c != ']')
    match t.dropWhile (fun c => c != ']') with
    | ']' :: '(' :: t2 => (tailMatch old t2).map (fun rem => (alt, rem))
    | _ => none
  | _ => none

/-- Python `re.sub` with the rewrite regex and replacement `![\1](NEW)`
(lines 44-48): scan left to right, replace each non-overlapping match,
resume after the match.  Fuel is instantiated with the text length. -/
def pySubAux (old new : Chars) : Nat → Chars → Chars
  | _, [] => []
  | 0, l => l
  | fuel + 1, c :: rest =>
    match trySub old (c :: rest) with
    | some (alt, rem) =>
      pys "![" ++ alt ++ pys "](" ++ new ++ pys ")" ++ pySubAux old new fuel rem
    | none => c :: pySubAux old new fuel rest

/-- Python `re.sub(pattern(old), replacement(new), l)` for the rewrite
regex. -/
def pySub (old new l : Chars) : Chars := pySubAux old new l.length l

/-- `convert_image_references` (lines 36-50): for each mapping entry in
order, first replace every literal `![[old]]` with `![](new)`, then apply
the `re.sub` that rewrites any markdown image whose parenthesized path ends
in `old` to `![alt](new)`.  The Python dict iterates in insertion order,
modelled as an association list. -/
def convert_image_references (content : Chars) (image_mapping : List (Chars × Chars)) : Chars :=
  image_mapping.foldl
    (fun c pr =>
      pySub pr.1 pr.2
        (pyReplace c (pys "![[" ++ pr.1 ++ pys "]]") (pys "![](" ++ pr.2 ++ pys ")")))
    content

/-- `is_bullet_point` (lines 57-62): the stripped line is nonempty and
starts with `-`, `*` or `+`, or starts with a digit and has a `.` among its
first four characters. -/
def is_bullet_point (line : Chars) : Bool :=
  match pyStrip line with
  | [] => false
  | c :: cs =>
    c == '-' || c == '*' || c == '+' ||
      (c.isDigit && ((c :: cs).take 4).contains '.')

/-- The `needs_blank_before` decision of the loop body (lines 68-79): a
nonempty stripped line starting with `!` or `#` always wants a blank line
before it; a bullet line wants one only when there is a preceding source
line that is not itself a bullet. -/
def needs_blank_before (prev : Option Chars) (line : Chars) : Bool :=
  match pyStrip line with
  | [] => false
  | '!' :: _ => true
  | '#' :: _ => true
  | _ =>
    if is_bullet_point line then
      match prev with
      | some p => !is_bullet_point p
      | none => false
    else false

/-- Truthiness of `fixed_lines[-1].strip()` for an optional last emitted
line (line 82); `none` models the empty `fixed_lines`. -/
def nonblankO : Option Chars → Bool
  | some e => !(pyStrip e).isEmpty
  | none => false

/-- Does the stripped line start with `!` (the image test of line 88)? -/
def isImgLine (line : Chars) : Bool :=
  match pyStrip line with
  | '!' :: _ => true
  | _ => false

/-- Truthiness of `lines[i + 1].strip()` when a next source line exists
(line 90). -/
def nextNonblank : List Chars → Bool
  | nxt :: _ => !(pyStrip nxt).isEmpty
  | [] => false

/-- The loop of `fix_markdown_spacing` (lines 64-91): `prev` is the
preceding source line (`lines[i - 1]`), `lastEmit` the last element of
`fixed_lines`.  Per line it optionally emits a blank line before (when the
line wants one and the last emitted line is nonblank), the line itself, and
a blank line after an image line whose next source line is nonblank; the
inserted blank becomes the new last emitted line. -/
def fixAux : Option Chars → Option Chars → List Chars → List Chars
  | _, _, [] => []
  | prev, lastEmit, line :: rest =>
    (if needs_blank_before prev line && nonblankO lastEmit then [([] : Chars)] else []) ++
      line ::
        (if isImgLine line && nextNonblank rest then
          ([] : Chars) :: fixAux (some line) (some []) rest
        else fixAux (some line) (some line) rest)

/-- `fix_markdown_spacing` (lines 52-93): split at newlines, run the
blank-line insertion loop, join with newlines. -/
def fix_markdown_spacing (content : Chars) : Chars :=
  joinCh '\n' (fixAux none none (splitCh '\n' content))

/-- Kind of filesystem entry occupying a path (`Path.exists` is true for
both). -/
inductive EntryKind : Type
  | file : EntryKind
  | dir : EntryKind
deriving DecidableEq, Repr

/-- The candidate source directory an image is copied from: the explicit
attachments directory or the directory containing the note (lines 140-143,
in this priority order). -/
inductive SrcDir : Type
  | attachments : SrcDir
  | noteDir : SrcDir
deriving DecidableEq, Repr

/-- A filesystem mutation performed by `convert_obsidian_note`, in order:
creating the post directory (line 130), copying a resolved image into it
(line 154), writing `index.qmd` (lines 179-181).  Per spec §2 the
front-matter prepend is an external collaborator, so the written payload is
modelled as the rewritten, spacing-normalized body. -/
inductive Effect : Type
  | mkdirPost : Effect
  | copy : SrcDir → Chars → Effect
  | writeIndex : Chars → Effect
deriving DecidableEq, Repr

/-- The errors `convert_obsidian_note` can raise: the distinct
`FileExistsError` of the pre-check (line 117), or a generic I/O failure
(e.g. the note file cannot be read, line 120). -/
inductive ConvError : Type
  | fileExists : ConvError
  | ioError : ConvError
deriving DecidableEq, Repr

/-- Read-only view of the filesystem as seen by one invocation of
`convert_obsidian_note`: the entry (if any) occupying `posts/<slug>`, the
readable content of the note file, and which basenames exist in the
attachments directory respectively the note's own directory. -/
structure FSView : Type where
  postEntry : Option EntryKind
  note : Option Chars
  attachHas : Chars → Bool
  noteDirHas : Chars → Bool

/-- The `possible_paths` candidate list (lines 140-143): the attachments
directory first, then the note's directory, each paired with whether the
basename exists there. -/
def possiblePaths (fs : FSView) (fname : Chars) : List (SrcDir × Bool) :=
  [(SrcDir.attachments, fs.attachHas fname), (SrcDir.noteDir, fs.noteDirHas fname)]

/-- The probe loop of lines 145-149: the first candidate path that exists
wins. -/
def resolveImage (fs : FSView) (fname : Chars) : Option SrcDir :=
  ((possiblePaths fs fname).find? (fun pr => pr.2)).map Prod.fst

/-- The copy loop of lines 133-157: for each reference in order, take its
basename, resolve it; on success record `reference → basename` in the
mapping and a copy effect, otherwise record one warning carrying the
missing basename.  Returns (mapping, warnings, copy effects). -/
def copyImages (fs : FSView) : List Chars → List (Chars × Chars) × List Chars × List Effect
  | [] => ([], [], [])
  | ref :: rest =>
    let fname := pyBasename ref
    let r := copyImages fs rest
    match resolveImage fs fname with
    | some d => ((ref, fname) :: r.1, r.2.1, Effect.copy d fname :: r.2.2)
    | none => (r.1, fname :: r.2.1, r.2.2)

/-- `convert_obsidian_note` (lines 95-181) over the filesystem view: fail
with the distinct `FileExistsError` if anything occupies `posts/<slug>`
(before the note is even read and before any mutation); otherwise read the
note, extract references, create the post directory, copy what resolves,
rewrite and normalize, and write the output file.  The successful result
lists the mutations in program order together with the emitted warnings. -/
def convert_obsidian_note (fs : FSView) : Except ConvError (List Effect × List Chars) :=
  if fs.postEntry.isSome then Except.error ConvError.fileExists
  else
    match fs.note with
    | none => Except.error ConvError.ioError
    | some content =>
      let image_refs := find_image_references content
      let r := copyImages fs image_refs
      let rewritten := convert_image_references content r.1
      let body := fix_markdown_spacing rewritten
      Except.ok (Effect.mkdirPost :: r.2.2 ++ [Effect.writeIndex body], r.2.1)

/-- Output lines are input lines with blank lines inserted:
`InsBlanks xs ys` says `ys` is `xs` with zero or more empty lines
interleaved, every original line kept verbatim and in order. -/
inductive InsBlanks : List Chars → List Chars → Prop
  | nil : InsBlanks [] []
  | keep (x : Chars) {xs ys : List Chars} : InsBlanks xs ys → InsBlanks (x :: xs) (x :: ys)
  | blank {xs ys : List Chars} : InsBlanks xs ys → InsBlanks xs ([] :: ys)

/-! Supporting lemmas about the two regex scanners. -/

theorem tryP1_some_length {l w rem : Chars} (h : tryP1 l = some (w, rem)) :
    rem.length < l.length := by
  unfold tryP1 at h
  split at h
  case _ t =>
    split at h
    · split at h
      case _ rem' heq =>
        have hlen := congrArg List.length
          (List.takeWhile_append_dropWhile (fun c => c != ']') t)
        rw [heq] at hlen
        simp only [List.length_append, List.length_cons, List.length_nil] at hlen
        injection h with h1
        injection h1 with h2 h3
        subst h3
        simp only [List.length_cons]
        omega
      · exact absurd h (by simp)
    · exact absurd h (by simp)
  · exact absurd h (by simp)

theorem tryP2_some_length {l : Chars} {ap : Chars × Chars} {rem : Chars}
    (h : tryP2 l = some (ap, rem)) : rem.length < l.length := by
  unfold tryP2 at h
  split at h
  case _ t =>
    split at h
    case _ t2 heq =>
      have hlen := congrArg List.length
        (List.takeWhile_append_dropWhile (fun c => c != ']') t)
      rw [heq] at hlen
      simp only [List.length_append, List.length_cons] at hlen
      split at h
      · split at h
        case _ rem' heq2 =>
          have hlen2 := congrArg List.length
            (List.takeWhile_append_dropWhile (fun c => c != ')') t2)
          rw [heq2] at hlen2
          simp only [List.length_append, List.length_cons] at hlen2
          injection h with h1
          injection h1 with h2 h3
          subst h3
          simp only [List.length_cons]
          omega
        · exact absurd h (by simp)
      · exact absurd h (by simp)
    · exact absurd h (by simp)
  · exact absurd h (by simp)

theorem findP1Aux_congr : ∀ (n m : Nat) (l : Chars),
    l.length ≤ n → l.length ≤ m → findP1Aux n l = findP1Aux m l := by
  intro n
  induction n with
  | zero =>
    intro m l hn _
    have : l = [] := List.eq_nil_of_length_eq_zero (Nat.le_zero.mp hn)
    subst this
    cases m <;> simp [findP1Aux]
  | succ n ih =>
    intro m l hn hm
    cases l with
    | nil => cases m <;> simp [findP1Aux]
    | cons c rest =>
      cases m with
      | zero => simp at hm
      | succ m' =>
        cases h : tryP1 (c :: rest) with
        | none =>
          simp only [findP1Aux, h]
          exact ih m' rest (by simp at hn; omega) (by simp at hm; omega)
        | some pr =>
          obtain ⟨w, rem⟩ := pr
          have hlt := tryP1_some_length h
          simp only [List.length_cons] at hlt hn hm
          simp only [findP1Aux, h]
          rw [ih m' rem (by omega) (by omega)]

theorem findP2Aux_congr : ∀ (n m : Nat) (l : Chars),
    l.length ≤ n → l.length ≤ m → findP2Aux n l = findP2Aux m l := by
  intro n
  induction n with
  | zero =>
    intro m l hn _
    have : l = [] := List.eq_nil_of_length_eq_zero (Nat.le_zero.mp hn)
    subst this
    cases m <;> simp [findP2Aux]
  | succ n ih =>
    intro m l hn hm
    cases l with
    | nil => cases m <;> simp [findP2Aux]
    | cons c rest =>
      cases m with
      | zero => simp at hm
      | succ m' =>
        cases h : tryP2 (c :: rest) with
        | none =>
          simp only [findP2Aux, h]
          exact ih m' rest (by simp at hn; omega) (by simp at hm; omega)
        | some pr =>
          obtain ⟨ap, rem⟩ := pr
          have hlt := tryP2_some_length h
          simp only [List.length_cons] at hlt hn hm
          simp only [findP2Aux, h]
          rw [ih m' rem (by omega) (by omega)]

theorem findP1_cons_some {c : Char} {rest w rem : Chars}
    (h : tryP1 (c :: rest) = some (w, rem)) :
    findP1 (c :: rest) = w :: findP1 rem := by
  have hlt := tryP1_some_length h
  simp only [List.length_cons] at hlt
  show findP1Aux (c :: rest).length (c :: rest) = _
  simp only [List.length_cons, findP1Aux, h]
  rw [findP1Aux_congr rest.length rem.length rem (by omega) (by omega)]
  rfl

theorem findP1_cons_none {c : Char} {rest : Chars}
    (h : tryP1 (c :: rest) = none) :
    findP1 (c :: rest) = findP1 rest := by
  show findP1Aux (c :: rest).length (c :: rest) = _
  simp only [List.length_cons, findP1Aux, h]
  rfl

theorem findP2_cons_some {c : Char} {rest rem : Chars} {ap : Chars × Chars}
    (h : tryP2 (c :: rest) = some (ap, rem)) :
    findP2 (c :: rest) = ap :: findP2 rem := by
  have hlt := tryP2_some_length h
  simp only [List.length_cons] at hlt
  show findP2Aux (c :: rest).length (c :: rest) = _
  simp only [List.length_cons, findP2Aux, h]
  rw [findP2Aux_congr rest.length rem.length rem (by omega) (by omega)]
  rfl

theorem findP2_cons_none {c : Char} {rest : Chars}
    (h : tryP2 (c :: rest) = none) :
    findP2 (c :: rest) = findP2 rest := by
  show findP2Aux (c :: rest).length (c :: rest) = _
  simp only [List.length_cons, findP2Aux, h]
  rfl

theorem tryP1_ne {c : Char} (l : Chars) (h : c ≠ '!') : tryP1 (c :: l) = none := by
  unfold tryP1
  split
  case _ t heq =>
    injection heq with h1
    exact absurd h1 h
  · rfl

theorem tryP2_ne {c : Char} (l : Chars) (h : c ≠ '!') : tryP2 (c :: l) = none := by
  unfold tryP2
  split
  case _ t heq =>
    injection heq with h1
    exact absurd h1 h
  · rfl

theorem findP1_append_no_bang {A : Chars} (s : Chars)
    (hA : A.all (fun c => c != '!') = true) : findP1 (A ++ s) = findP1 s := by
  induction A with
  | nil => rfl
  | cons a A' ih =>
    simp only [List.all_cons, Bool.and_eq_true, bne_iff_ne, ne_eq] at hA
    have h1 : tryP1 (a :: (A' ++ s)) = none := tryP1_ne _ hA.1
    calc findP1 ((a :: A') ++ s) = findP1 (A' ++ s) := findP1_cons_none h1
    _ = findP1 s := ih (by simpa using hA.2)

theorem findP2_append_no_bang {A : Chars} (s : Chars)
    (hA : A.all (fun c => c != '!') = true) : findP2 (A ++ s) = findP2 s := by
  induction A with
  | nil => rfl
  | cons a A' ih =>
    simp only [List.all_cons, Bool.and_eq_true, bne_iff_ne, ne_eq] at hA
    have h1 : tryP2 (a :: (A' ++ s)) = none := tryP2_ne _ hA.1
    calc findP2 ((a :: A') ++ s) = findP2 (A' ++ s) := findP2_cons_none h1
    _ = findP2 s := ih (by simpa using hA.2)

theorem findP1_no_bang {A : Chars} (hA : A.all (fun c => c != '!') = true) :
    findP1 A = [] := by
  have := findP1_append_no_bang [] hA
  simpa using this

theorem findP2_no_bang {A : Chars} (hA : A.all (fun c => c != '!') = true) :
    findP2 A = [] := by
  have := findP2_append_no_bang [] hA
  simpa using this


/-! Scanner steps over the concrete reference chunks used by the
extraction claims. -/

theorem findP1_chunkEmbed (s : Chars) :
    findP1 (pys "![[a.png]]" ++ s) = pys "a.png" :: findP1 s :=
  findP1_cons_some (show tryP1 ('!' :: (pys "[[a.png]]" ++ s)) = some (pys "a.png", s) from rfl)

theorem findP2_chunkEmbed (s : Chars) :
    findP2 (pys "![[a.png]]" ++ s) = findP2 s := by
  have h1 : findP2 ('!' :: (pys "[[a.png]]" ++ s)) = findP2 (pys "[[a.png]]" ++ s) :=
    findP2_cons_none (rfl)
  calc findP2 (pys "![[a.png]]" ++ s) = findP2 (pys "[[a.png]]" ++ s) := h1
  _ = findP2 s := findP2_append_no_bang s (by decide)

theorem findP1_chunkMd (s : Chars) :
    findP1 (pys "![alt](dir/b.JPG)" ++ s) = findP1 s := by
  have h1 : findP1 ('!' :: (pys "[alt](dir/b.JPG)" ++ s)) = findP1 (pys "[alt](dir/b.JPG)" ++ s) :=
    findP1_cons_none (rfl)
  calc findP1 (pys "![alt](dir/b.JPG)" ++ s) = findP1 (pys "[alt](dir/b.JPG)" ++ s) := h1
  _ = findP1 s := findP1_append_no_bang s (by decide)

theorem findP2_chunkMd (s : Chars) :
    findP2 (pys "![alt](dir/b.JPG)" ++ s) = (pys "alt", pys "dir/b.JPG") :: findP2 s :=
  findP2_cons_some (show tryP2 ('!' :: (pys "[alt](dir/b.JPG)" ++ s)) = some ((pys "alt", pys "dir/b.JPG"), s) from rfl)

theorem findP1_chunkPdf (s : Chars) :
    findP1 (pys "![[doc.pdf]]" ++ s) = findP1 s := by
  have h1 : findP1 ('!' :: (pys "[[doc.pdf]]" ++ s)) = findP1 (pys "[[doc.pdf]]" ++ s) :=
    findP1_cons_none (rfl)
  calc findP1 (pys "![[doc.pdf]]" ++ s) = findP1 (pys "[[doc.pdf]]" ++ s) := h1
  _ = findP1 s := findP1_append_no_bang s (by decide)

theorem findP2_chunkPdf (s : Chars) :
    findP2 (pys "![[doc.pdf]]" ++ s) = findP2 s := by
  have h1 : findP2 ('!' :: (pys "[[doc.pdf]]" ++ s)) = findP2 (pys "[[doc.pdf]]" ++ s) :=
    findP2_cons_none (rfl)
  calc findP2 (pys "![[doc.pdf]]" ++ s) = findP2 (pys "[[doc.pdf]]" ++ s) := h1
  _ = findP2 s := findP2_append_no_bang s (by decide)

/-- Claim C4, counterexample.  The claim quantifies over every text
containing `![[a.png]]` and `![alt](dir/b.JPG)` as substrings.  In the text
`![[b.` ++ `![[a.png]]` ++ ` ` ++ `![alt](dir/b.JPG)` the greedy scan of
the bracket-embed regex matches `![[b.![[a.png]]` first (the bracket-free
class `[^\]]+` happily crosses the inner `![[`), capturing `b.![[a.png`
and consuming the occurrence of `![[a.png]]`, so `a.png` is NOT among the
extracted references even though `![[a.png]]` literally occurs in the
text. -/
theorem claim_C4_counterexample :
    pys "a.png" ∉
      find_image_references
        (pys "![[b." ++ pys "![[a.png]]" ++ pys " " ++ pys "![alt](dir/b.JPG)") ∧
    pys "dir/b.JPG" ∈
      find_image_references
        (pys "![[b." ++ pys "![[a.png]]" ++ pys " " ++ pys "![alt](dir/b.JPG)") ∧
    pys "b.![[a.png" ∈
      find_image_references
        (pys "![[b." ++ pys "![[a.png]]" ++ pys " " ++ pys "![alt](dir/b.JPG)") := by
  decide

/-- Claim C4, amended: the extraction guarantee holds for every text in
which the two references are separated by context free of `!` (so no
surrounding partial syntax can swallow them): the extractor returns exactly
`a.png` and `dir/b.JPG`, verbatim, case preserved, path not stripped,
without duplicates; and a reference with an unsupported extension such as
`![[doc.pdf]]` contributes nothing. -/
theorem claim_C4_amended (A B C : Chars)
    (hA : A.all (fun c => c != '!') = true)
    (hB : B.all (fun c => c != '!') = true)
    (hC : C.all (fun c => c != '!') = true) :
    find_image_references
        (A ++ (pys "![[a.png]]" ++ (B ++ (pys "![alt](dir/b.JPG)" ++ C)))) =
      [pys "a.png", pys "dir/b.JPG"] ∧
    find_image_references (A ++ (pys "![[doc.pdf]]" ++ C)) = [] := by
  constructor
  · have h1 : findP1 (A ++ (pys "![[a.png]]" ++ (B ++ (pys "![alt](dir/b.JPG)" ++ C)))) =
        [pys "a.png"] := by
      rw [findP1_append_no_bang _ hA, findP1_chunkEmbed, findP1_append_no_bang _ hB,
        findP1_chunkMd, findP1_no_bang hC]
    have h2 : findP2 (A ++ (pys "![[a.png]]" ++ (B ++ (pys "![alt](dir/b.JPG)" ++ C)))) =
        [(pys "alt", pys "dir/b.JPG")] := by
      rw [findP2_append_no_bang _ hA, findP2_chunkEmbed, findP2_append_no_bang _ hB,
        findP2_chunkMd, findP2_no_bang hC]
    unfold find_image_references
    rw [h1, h2]
    decide
  · have h1 : findP1 (A ++ (pys "![[doc.pdf]]" ++ C)) = [] := by
      rw [findP1_append_no_bang _ hA, findP1_chunkPdf, findP1_no_bang hC]
    have h2 : findP2 (A ++ (pys "![[doc.pdf]]" ++ C)) = [] := by
      rw [findP2_append_no_bang _ hA, findP2_chunkPdf, findP2_no_bang hC]
    unfold find_image_references
    rw [h1, h2]
    decide

/-- Claim C4, witness: the amended theorem applied at concrete separating
context. -/
theorem claim_C4_witness :
    find_image_references
        (pys "x" ++ (pys "![[a.png]]" ++ (pys " " ++ (pys "![alt](dir/b.JPG)" ++ pys "y")))) =
      [pys "a.png", pys "dir/b.JPG"] ∧
    find_image_references (pys "x" ++ (pys "![[doc.pdf]]" ++ pys "y")) = [] :=
  claim_C4_amended (pys "x") (pys " ") (pys "y") (by decide) (by decide) (by decide)

/-- Claim C1, counterexample.  The mapping entry `cat.png → cat.png` does
alter the occurrence of the distinct reference `bobcat.png`: the rewrite
regex matches any parenthesized path whose paren-free run ends in the
mapped reference, and `bobcat.png` ends in `cat.png`, so
`![x](bobcat.png)` is rewritten to `![x](cat.png)`. -/
theorem claim_C1_counterexample :
    convert_image_references (pys "![x](bobcat.png)") [(pys "cat.png", pys "cat.png")] ≠
      pys "![x](bobcat.png)" ∧
    convert_image_references (pys "![x](bobcat.png)") [(pys "cat.png", pys "cat.png")] =
      pys "![x](cat.png)" := by
  decide

/-- Claim C1, amended: replacements are keyed by the exact reference string
for the bracket-embed syntax only — entry `cat.png` leaves `![[bobcat.png]]`
untouched — while for the markdown-image syntax the rewrite matches by
suffix inside the parentheses, so an entry whose reference is a suffix of a
distinct reference's paren content (such as `cat.png` inside
`![x](bobcat.png)`) does capture and rewrite that occurrence. -/
theorem claim_C1_amended :
    convert_image_references (pys "![[bobcat.png]]") [(pys "cat.png", pys "cat.png")] =
      pys "![[bobcat.png]]" ∧
    convert_image_references (pys "![x](bobcat.png)") [(pys "cat.png", pys "cat.png")] =
      pys "![x](cat.png)" := by
  decide

/-- Claim C3: the rewriter normalizes both syntaxes into markdown-image
form — `![[pic.png]]` with mapping `pic.png → pic.png` becomes
`![](pic.png)` (empty alt), and `![cat](assets/cat.png)` with mapping
`assets/cat.png → cat.png` becomes `![cat](cat.png)` (alt preserved, path
replaced by the mapped basename). -/
theorem claim_C3_rewrite_normalization :
    convert_image_references (pys "![[pic.png]]") [(pys "pic.png", pys "pic.png")] =
      pys "![](pic.png)" ∧
    convert_image_references (pys "![cat](assets/cat.png)")
        [(pys "assets/cat.png", pys "cat.png")] =
      pys "![cat](cat.png)" := by
  decide

/-- When no candidate directory ever has any basename, nothing resolves:
the mapping and the copy effects are empty and each reference, in order,
contributes exactly one warning carrying its basename. -/
theorem copyImages_all_missing (fs : FSView)
    (hatt : ∀ f, fs.attachHas f = false) (hndir : ∀ f, fs.noteDirHas f = false) :
    ∀ refs : List Chars, copyImages fs refs = ([], refs.map pyBasename, []) := by
  intro refs
  induction refs with
  | nil => rfl
  | cons ref rest ih =>
    have hres : resolveImage fs (pyBasename ref) = none := by
      simp [resolveImage, possiblePaths, List.find?, hatt, hndir]
    simp [copyImages, hres, ih]

/-- Claim C2, counterexample.  Two distinct unresolved references with the
same basename produce two warnings, not "exactly one warning per missing
basename": converting a note referencing `x/cat.png` and `y/cat.png` with
no image present anywhere emits the warning basename `cat.png` twice,
although only one basename is missing.  (The conversion still completes,
and with an empty mapping the body is rewritten only by the spacing
normalizer.) -/
theorem claim_C2_counterexample :
    convert_obsidian_note
        ⟨none, some (pys "![a](x/cat.png)\n![b](y/cat.png)"),
          fun _ => false, fun _ => false⟩ =
      Except.ok
        ([Effect.mkdirPost,
          Effect.writeIndex (pys "![a](x/cat.png)\n\n![b](y/cat.png)")],
          [pys "cat.png", pys "cat.png"]) ∧
    ((find_image_references (pys "![a](x/cat.png)\n![b](y/cat.png)")).map
        pyBasename).dedup = [pys "cat.png"] := by
  constructor
  · rfl
  · decide

/-- Claim C2, amended: an unresolved reference is skipped non-fatally with
exactly one warning per unresolved reference string (so a basename missing
under two distinct reference strings is warned once per reference, not once
per basename), and when nothing resolves the mapping is empty and the
rewriter leaves the whole text untouched, so every unresolved reference's
original syntax survives into the output body (altered only by the spacing
normalizer). -/
theorem claim_C2_amended (content : Chars) (att ndir : Chars → Bool)
    (hatt : ∀ f, att f = false) (hndir : ∀ f, ndir f = false) :
    convert_obsidian_note ⟨none, some content, att, ndir⟩ =
      Except.ok
        ([Effect.mkdirPost, Effect.writeIndex (fix_markdown_spacing content)],
          (find_image_references content).map pyBasename) := by
  have hcopy := copyImages_all_missing ⟨none, some content, att, ndir⟩ hatt hndir
    (find_image_references content)
  simp [convert_obsidian_note, hcopy, convert_image_references]

/-- Claim C2, witness: the amended theorem at a concrete unresolvable
note. -/
theorem claim_C2_witness :
    convert_obsidian_note
        ⟨none, some (pys "![[z.png]]"), fun _ => false, fun _ => false⟩ =
      Except.ok
        ([Effect.mkdirPost,
          Effect.writeIndex (fix_markdown_spacing (pys "![[z.png]]"))],
          (find_image_references (pys "![[z.png]]")).map pyBasename) :=
  claim_C2_amended (pys "![[z.png]]") (fun _ => false) (fun _ => false)
    (fun _ => rfl) (fun _ => rfl)

/-- Claim C5: resolution probes the attachments directory first and the
note's directory second, and the first existing path wins — when the
basename exists in both, the resolved source is the attachments directory,
and converting that single reference records the mapping entry and a copy
effect whose source is the attachments directory. -/
theorem claim_C5_resolution_priority (fs : FSView) (ref : Chars)
    (h1 : fs.attachHas (pyBasename ref) = true)
    (_h2 : fs.noteDirHas (pyBasename ref) = true) :
    resolveImage fs (pyBasename ref) = some SrcDir.attachments ∧
    copyImages fs [ref] =
      ([(ref, pyBasename ref)], [], [Effect.copy SrcDir.attachments (pyBasename ref)]) := by
  have hres : resolveImage fs (pyBasename ref) = some SrcDir.attachments := by
    simp [resolveImage, possiblePaths, List.find?, h1]
  exact ⟨hres, by simp [copyImages, hres]⟩

/-- Claim C5, witness: both directories hold the basename; the
attachments-directory copy is the one taken. -/
theorem claim_C5_witness :
    resolveImage ⟨none, none, fun _ => true, fun _ => true⟩ (pyBasename (pys "a/x.png")) =
      some SrcDir.attachments ∧
    copyImages ⟨none, none, fun _ => true, fun _ => true⟩ [pys "a/x.png"] =
      ([(pys "a/x.png", pyBasename (pys "a/x.png"))], [],
        [Effect.copy SrcDir.attachments (pyBasename (pys "a/x.png"))]) :=
  claim_C5_resolution_priority ⟨none, none, fun _ => true, fun _ => true⟩
    (pys "a/x.png") rfl rfl

/-- Claim C6: if anything occupies the destination post directory,
conversion fails with the distinct `FileExistsError` and performs no
filesystem mutation at all — the error result carries no effect, so the
directory is never created and no image or file is ever copied or
written. -/
theorem claim_C6_fail_fast (fs : FSView) (h : fs.postEntry.isSome = true) :
    convert_obsidian_note fs = Except.error ConvError.fileExists := by
  simp [convert_obsidian_note, h]

/-- Claim C6, witness: a destination directory entry triggers the error. -/
theorem claim_C6_witness :
    (Option.isSome (some EntryKind.dir) = true) ∧
    convert_obsidian_note
        ⟨some EntryKind.dir, some (pys "hello"), fun _ => true, fun _ => true⟩ =
      Except.error ConvError.fileExists :=
  ⟨rfl, claim_C6_fail_fast ⟨some EntryKind.dir, some (pys "hello"), fun _ => true, fun _ => true⟩ rfl⟩

/-- Claim C10: the conversion raises the `FileExistsError` exactly when
some filesystem entry — of either kind, a regular file included — occupies
the destination path; in particular a regular file at `posts/<slug>`
triggers the same fatal error (and, the pre-check coming first, the note is
not read: the error is produced whatever the note field holds). -/
theorem claim_C10_exists_iff (fs : FSView) :
    convert_obsidian_note fs = Except.error ConvError.fileExists ↔ fs.postEntry ≠ none := by
  constructor
  · intro h
    cases hp : fs.postEntry with
    | none =>
      rw [convert_obsidian_note, hp] at h
      simp only [Option.isSome_none, Bool.false_eq_true, if_false] at h
      cases hn : fs.note with
      | none => rw [hn] at h; exact absurd h (by simp)
      | some content => rw [hn] at h; exact absurd h (by simp)
    | some k => simp [hp]
  · intro h
    obtain ⟨k, hk⟩ := Option.ne_none_iff_exists'.mp h
    simp [convert_obsidian_note, hk]

/-- Claim C7: the spacing normalizer inserts a blank line before the first
item of a list run only. -/
theorem claim_C7_first_list_item :
    fix_markdown_spacing (pys "text\n- item1\n- item2\nmore") =
      pys "text\n\n- item1\n- item2\nmore" := by
  decide

/-! Supporting lemmas about the spacing normalizer. -/

theorem needs_blank_nil (p : Option Chars) : needs_blank_before p ([] : Chars) = false := rfl

theorem isImgLine_nil : isImgLine ([] : Chars) = false := rfl

theorem nonblankO_some_nil : nonblankO (some ([] : Chars)) = false := rfl

theorem nextNonblank_blank (T : List Chars) : nextNonblank (([] : Chars) :: T) = false := rfl

theorem needs_blank_of_blank {line : Chars} (p : Option Chars)
    (h : pyStrip line = []) : needs_blank_before p line = false := by
  unfold needs_blank_before
  rw [h]

theorem isImgLine_of_blank {line : Chars} (h : pyStrip line = []) :
    isImgLine line = false := by
  unfold isImgLine
  rw [h]

theorem fixAux_cons (prev lastE : Option Chars) (l : Chars) (rest : List Chars) :
    fixAux prev lastE (l :: rest) =
      (if needs_blank_before prev l && nonblankO lastE then [([] : Chars)] else []) ++
        l :: (if isImgLine l && nextNonblank rest then
            ([] : Chars) :: fixAux (some l) (some []) rest
          else fixAux (some l) (some l) rest) := rfl

theorem fixAux_cons_tt {prev lastE : Option Chars} {l : Chars} {rest : List Chars}
    (h1 : (needs_blank_before prev l && nonblankO lastE) = true)
    (h2 : (isImgLine l && nextNonblank rest) = true) :
    fixAux prev lastE (l :: rest) =
      ([] : Chars) :: l :: ([] : Chars) :: fixAux (some l) (some []) rest := by
  rw [fixAux_cons, h1, h2]
  rfl

theorem fixAux_cons_tf {prev lastE : Option Chars} {l : Chars} {rest : List Chars}
    (h1 : (needs_blank_before prev l && nonblankO lastE) = true)
    (h2 : (isImgLine l && nextNonblank rest) = false) :
    fixAux prev lastE (l :: rest) =
      ([] : Chars) :: l :: fixAux (some l) (some l) rest := by
  rw [fixAux_cons, h1, h2]
  rfl

theorem fixAux_cons_ft {prev lastE : Option Chars} {l : Chars} {rest : List Chars}
    (h1 : (needs_blank_before prev l && nonblankO lastE) = false)
    (h2 : (isImgLine l && nextNonblank rest) = true) :
    fixAux prev lastE (l :: rest) =
      l :: ([] : Chars) :: fixAux (some l) (some []) rest := by
  rw [fixAux_cons, h1, h2]
  rfl

theorem fixAux_cons_ff {prev lastE : Option Chars} {l : Chars} {rest : List Chars}
    (h1 : (needs_blank_before prev l && nonblankO lastE) = false)
    (h2 : (isImgLine l && nextNonblank rest) = false) :
    fixAux prev lastE (l :: rest) = l :: fixAux (some l) (some l) rest := by
  rw [fixAux_cons, h1, h2]
  rfl

theorem fixAux_blank_cons (p e : Option Chars) (rest : List Chars) :
    fixAux p e (([] : Chars) :: rest) =
      ([] : Chars) :: fixAux (some []) (some []) rest :=
  fixAux_cons_ff (by rw [needs_blank_nil, Bool.false_and]) (by rw [isImgLine_nil, Bool.false_and])

theorem fixAux_blankish_cons (p e : Option Chars) {r : Chars} (rest : List Chars)
    (h : pyStrip r = []) :
    fixAux p e (r :: rest) = r :: fixAux (some r) (some r) rest :=
  fixAux_cons_ff (by rw [needs_blank_of_blank p h, Bool.false_and])
    (by rw [isImgLine_of_blank h, Bool.false_and])

theorem insBefore_false {prev lastE q h : Option Chars} {l : Chars}
    (hib : (needs_blank_before prev l && nonblankO lastE) = false)
    (hh : h = lastE)
    (hq : ∀ e, lastE = some e → (pyStrip e).isEmpty = false → q = prev) :
    (needs_blank_before q l && nonblankO h) = false := by
  cases hble : nonblankO lastE with
  | false => rw [hh, hble, Bool.and_false]
  | true =>
    rw [hble, Bool.and_true] at hib
    rw [hh, hble, Bool.and_true]
    cases lastE with
    | none => simp [nonblankO] at hble
    | some e =>
      have hne : (pyStrip e).isEmpty = false := by
        simp only [nonblankO, Bool.not_eq_true'] at hble
        exact hble
      rw [hq e rfl hne]
      exact hib

theorem insAfter_false {l : Chars} {rest : List Chars} (e' : Option Chars)
    (hia : (isImgLine l && nextNonblank rest) = false) :
    (isImgLine l && nextNonblank (fixAux (some l) e' rest)) = false := by
  cases himg : isImgLine l with
  | false => rw [Bool.false_and]
  | true =>
    rw [himg, Bool.true_and] at hia
    rw [Bool.true_and]
    cases rest with
    | nil => rw [show fixAux (some l) e' [] = [] from rfl]; rfl
    | cons r rest' =>
      have hr : pyStrip r = [] := by
        simp only [nextNonblank] at hia
        cases he : List.isEmpty (pyStrip r) with
        | true => exact List.isEmpty_iff.mp he
        | false => rw [he] at hia; exact absurd hia (by decide)
      rw [fixAux_blankish_cons _ _ _ hr]
      simp only [nextNonblank, hr]
      rfl

theorem fixAux_stable : ∀ (ls : List Chars) (prev lastE q h : Option Chars),
    h = lastE → (∀ e, lastE = some e → (pyStrip e).isEmpty = false → q = prev) →
    fixAux q h (fixAux prev lastE ls) = fixAux prev lastE ls := by
  intro ls
  induction ls with
  | nil => intro prev lastE q h _ _; rfl
  | cons l rest ih =>
    intro prev lastE q h hh hq
    have hvac : ∀ e : Chars, (some ([] : Chars) : Option Chars) = some e →
        (pyStrip e).isEmpty = false → (some ([] : Chars) : Option Chars) = some l := by
      intro e he hne
      cases he
      exact absurd hne (by decide)
    have hself : ∀ e : Chars, (some l : Option Chars) = some e →
        (pyStrip e).isEmpty = false → (some l : Option Chars) = some l :=
      fun _ _ _ => rfl
    have hins2 : (needs_blank_before (some ([] : Chars)) l && nonblankO (some ([] : Chars))) = false := by
      rw [nonblankO_some_nil, Bool.and_false]
    cases hib : needs_blank_before prev l && nonblankO lastE with
    | true =>
      cases hia : isImgLine l && nextNonblank rest with
      | true =>
        rw [fixAux_cons_tt hib hia, fixAux_blank_cons,
          fixAux_cons_ff hins2 (by rw [nextNonblank_blank, Bool.and_false]),
          fixAux_blank_cons, ih (some l) (some []) (some []) (some []) rfl hvac]
      | false =>
        rw [fixAux_cons_tf hib hia, fixAux_blank_cons,
          fixAux_cons_ff hins2 (insAfter_false (some l) hia),
          ih (some l) (some l) (some l) (some l) rfl hself]
    | false =>
      have hins := insBefore_false hib hh hq
      cases hia : isImgLine l && nextNonblank rest with
      | true =>
        rw [fixAux_cons_ft hib hia,
          fixAux_cons_ff hins (by rw [nextNonblank_blank, Bool.and_false]),
          fixAux_blank_cons, ih (some l) (some []) (some []) (some []) rfl hvac]
      | false =>
        rw [fixAux_cons_ff hib hia,
          fixAux_cons_ff hins (insAfter_false (some l) hia),
          ih (some l) (some l) (some l) (some l) rfl hself]

theorem splitChAux_ne_nil (sep : Char) : ∀ (l cur : Chars), splitChAux sep l cur ≠ [] := by
  intro l
  induction l with
  | nil => intro cur; simp [splitChAux]
  | cons c rest ih =>
    intro cur
    by_cases hc : (c == sep) = true
    · simp [splitChAux, hc]
    · simp only [splitChAux, hc, if_false, Bool.false_eq_true]
      exact ih (c :: cur)

theorem splitChAux_no_sep (sep : Char) : ∀ (l cur : Chars), (∀ c ∈ l, c ≠ sep) →
    splitChAux sep l cur = [cur.reverse ++ l] := by
  intro l
  induction l with
  | nil => intro cur _; simp [splitChAux]
  | cons c rest ih =>
    intro cur hl
    have hc : (c == sep) = false := by
      simp only [beq_eq_false_iff_ne, ne_eq]
      exact hl c (List.mem_cons_self c rest)
    simp only [splitChAux, hc, Bool.false_eq_true, if_false]
    rw [ih (c :: cur) (fun x hx => hl x (List.mem_cons_of_mem c hx))]
    simp

theorem splitChAux_sep_split (sep : Char) : ∀ (l cur rest' : Chars), (∀ c ∈ l, c ≠ sep) →
    splitChAux sep (l ++ sep :: rest') cur = (cur.reverse ++ l) :: splitChAux sep rest' [] := by
  intro l
  induction l with
  | nil =>
    intro cur rest' _
    simp [splitChAux]
  | cons c rest ih =>
    intro cur rest' hl
    have hc : (c == sep) = false := by
      simp only [beq_eq_false_iff_ne, ne_eq]
      exact hl c (List.mem_cons_self c rest)
    rw [show (c :: rest) ++ sep :: rest' = c :: (rest ++ sep :: rest') from rfl]
    simp only [splitChAux, hc, Bool.false_eq_true, if_false]
    rw [ih (c :: cur) rest' (fun x hx => hl x (List.mem_cons_of_mem c hx))]
    simp

theorem splitCh_joinCh (sep : Char) : ∀ ls : List Chars, ls ≠ [] →
    (∀ l ∈ ls, ∀ c ∈ l, c ≠ sep) → splitCh sep (joinCh sep ls) = ls := by
  intro ls
  induction ls with
  | nil => intro h _; exact absurd rfl h
  | cons l ls' ih =>
    intro _ hmem
    cases ls' with
    | nil =>
      show splitChAux sep (joinCh sep [l]) [] = [l]
      rw [show joinCh sep [l] = l from rfl]
      rw [splitChAux_no_sep sep l [] (hmem l (List.mem_cons_self l []))]
      simp
    | cons l₂ ls'' =>
      show splitChAux sep (joinCh sep (l :: l₂ :: ls'')) [] = l :: l₂ :: ls''
      rw [show joinCh sep (l :: l₂ :: ls'') = l ++ sep :: joinCh sep (l₂ :: ls'') from rfl]
      rw [splitChAux_sep_split sep l [] (joinCh sep (l₂ :: ls''))
        (hmem l (List.mem_cons_self l _))]
      simp only [List.reverse_nil, List.nil_append]
      have := ih (by simp) (fun x hx => hmem x (List.mem_cons_of_mem l hx))
      rw [show splitChAux sep (joinCh sep (l₂ :: ls'')) [] = splitCh sep (joinCh sep (l₂ :: ls'')) from rfl, this]

theorem splitChAux_mem_no_sep (sep : Char) : ∀ (l cur pc : Chars),
    (∀ c ∈ cur, c ≠ sep) → pc ∈ splitChAux sep l cur → ∀ c ∈ pc, c ≠ sep := by
  intro l
  induction l with
  | nil =>
    intro cur pc hcur hpc
    simp only [splitChAux, List.mem_singleton] at hpc
    subst hpc
    intro c hc
    exact hcur c (List.mem_reverse.mp hc)
  | cons a rest ih =>
    intro cur pc hcur hpc
    by_cases ha : (a == sep) = true
    · simp only [splitChAux, ha, if_true, List.mem_cons] at hpc
      rcases hpc with hpc | hpc
      · subst hpc
        intro c hc
        exact hcur c (List.mem_reverse.mp hc)
      · exact ih [] pc (by simp) hpc
    · simp only [splitChAux, ha, Bool.false_eq_true, if_false] at hpc
      refine ih (a :: cur) pc ?_ hpc
      intro c hc
      rcases List.mem_cons.mp hc with hc | hc
      · subst hc
        simpa using ha
      · exact hcur c hc

theorem splitCh_mem_no_sep {sep : Char} {s pc : Chars} (h : pc ∈ splitCh sep s) :
    ∀ c ∈ pc, c ≠ sep :=
  splitChAux_mem_no_sep sep s [] pc (by simp) h

theorem fixAux_mem : ∀ (ls : List Chars) (p e : Option Chars) (x : Chars),
    x ∈ fixAux p e ls → x ∈ ls ∨ x = [] := by
  intro ls
  induction ls with
  | nil => intro p e x hx; exact absurd hx (by simp [fixAux])
  | cons l rest ih =>
    intro p e x hx
    rw [fixAux_cons] at hx
    rcases List.mem_append.mp hx with hx | hx
    · right
      by_cases hib : (needs_blank_before p l && nonblankO e) = true
      · simp [hib] at hx; exact hx
      · simp [hib] at hx
    · rcases List.mem_cons.mp hx with hx | hx
      · left; exact hx ▸ List.mem_cons_self l rest
      · by_cases hia : (isImgLine l && nextNonblank rest) = true
        · simp only [hia, if_true, List.mem_cons] at hx
          rcases hx with hx | hx
          · right; exact hx
          · rcases ih (some l) (some []) x hx with h | h
            · left; exact List.mem_cons_of_mem l h
            · right; exact h
        · simp only [hia, if_false] at hx
          rcases ih (some l) (some l) x hx with h | h
          · left; exact List.mem_cons_of_mem l h
          · right; exact h

theorem fixAux_ne_nil {ls : List Chars} (h : ls ≠ []) (p e : Option Chars) :
    fixAux p e ls ≠ [] := by
  cases ls with
  | nil => exact absurd rfl h
  | cons l rest =>
    rw [fixAux_cons]
    intro hc
    rcases List.append_eq_nil.mp hc with ⟨_, h2⟩
    exact List.cons_ne_nil _ _ h2

/-- Claim C8: the spacing normalizer is idempotent — applying
`fix_markdown_spacing` twice yields byte-identical output to applying it
once, for every input text. -/
theorem claim_C8_idempotent (content : Chars) :
    fix_markdown_spacing (fix_markdown_spacing content) = fix_markdown_spacing content := by
  unfold fix_markdown_spacing
  have hsplit : splitCh '\n' (joinCh '\n' (fixAux none none (splitCh '\n' content))) =
      fixAux none none (splitCh '\n' content) := by
    apply splitCh_joinCh
    · exact fixAux_ne_nil (splitChAux_ne_nil '\n' content []) none none
    · intro l hl c hc
      rcases fixAux_mem (splitCh '\n' content) none none l hl with h | h
      · exact splitCh_mem_no_sep h c hc
      · subst h; exact absurd hc (List.not_mem_nil c)
  rw [hsplit, fixAux_stable (splitCh '\n' content) none none none none rfl
    (fun e he _ => by cases he)]

/-- Every line emitted by the spacing loop is an original line (in order)
or an inserted blank. -/
theorem insBlanks_fixAux : ∀ (ls : List Chars) (p e : Option Chars),
    InsBlanks ls (fixAux p e ls) := by
  intro ls
  induction ls with
  | nil => intro p e; exact InsBlanks.nil
  | cons l rest ih =>
    intro p e
    rw [fixAux_cons]
    by_cases hib : (needs_blank_before p l && nonblankO e) = true
    · by_cases hia : (isImgLine l && nextNonblank rest) = true
      · simp only [hib, hia, if_true, List.singleton_append]
        exact InsBlanks.blank (InsBlanks.keep l (InsBlanks.blank (ih (some l) (some []))))
      · simp only [hib, hia, if_true, if_false, List.singleton_append]
        exact InsBlanks.blank (InsBlanks.keep l (ih (some l) (some l)))
    · by_cases hia : (isImgLine l && nextNonblank rest) = true
      · simp only [hib, hia, if_true, if_false, List.nil_append]
        exact InsBlanks.keep l (InsBlanks.blank (ih (some l) (some [])))
      · simp only [hib, hia, if_false, List.nil_append]
        exact InsBlanks.keep l (ih (some l) (some l))

/-- Claim C9: for every input text, the lines of the normalized output are
exactly the input's lines, unmodified and in their original order, with
zero or more empty lines inserted between them — the normalizer never
edits, reorders, or deletes an existing line. -/
theorem claim_C9_insert_only (content : Chars) :
    InsBlanks (splitCh '\n' content) (splitCh '\n' (fix_markdown_spacing content)) := by
  unfold fix_markdown_spacing
  have hsplit : splitCh '\n' (joinCh '\n' (fixAux none none (splitCh '\n' content))) =
      fixAux none none (splitCh '\n' content) := by
    apply splitCh_joinCh
    · exact fixAux_ne_nil (splitChAux_ne_nil '\n' content []) none none
    · intro l hl c hc
      rcases fixAux_mem (splitCh '\n' content) none none l hl with h | h
      · exact splitCh_mem_no_sep h c hc
      · subst h; exact absurd hc (List.not_mem_nil c)
  rw [hsplit]
  exact insBlanks_fixAux (splitCh '\n' content) none none
